import Mathlib

/-!
Verification of the axis-wise Softmax operator
(`src/chainer/functions/activation/softmax.py`) against its
natural-language specification.  Arrays are embedded as dependent index
functions into the reals; the validation, backend-selection and
state-machine layers are embedded as computable functions.
-/

/-- Element dtypes of the arrays handled by the operator.  The three
floating kinds model numpy dtypes of kind `f`; the integral kinds model
arrays the validation rejects. -/
inductive Dtype where
  | float16
  | float32
  | float64
  | int32
  | int64
deriving DecidableEq

/-- The numpy dtype-kind test `dtype.kind == 'f'` used by
`Softmax.check_type_forward`. -/
def Dtype.isFloat : Dtype → Bool
  | .float16 => true
  | .float32 => true
  | .float64 => true
  | _ => false

/-- Where an array resides: `host` means the array module is numpy,
`accelerator` means it is cupy (so `xp != numpy` in the source). -/
inductive Device where
  | host
  | accelerator
deriving DecidableEq

/-- A multi-index into an array of the given shape: one coordinate per
dimension, each bounded by the corresponding extent. -/
def Index (s : List ℕ) : Type := (i : Fin s.length) → Fin (s.get i)

/-- An N-dimensional array: shape, dtype, device tag and element data,
with real numbers standing for the floating values. -/
structure NDArray where
  shape : List ℕ
  dtype : Dtype
  device : Device
  data : Index shape → ℝ

/-- Replace the coordinate of a multi-index at the given axis, leaving
all other coordinates unchanged. -/
def updAt (s : List ℕ) (ax : Fin s.length) (idx : Index s) (j : Fin (s.get ax)) : Index s :=
  Function.update idx ax j

/-- Pointwise value of `x.max(axis=self.axis, keepdims=True)` (line 49 of
the source): the maximum of the slice through `idx` along the axis.  On a
zero-size axis the value is junk; numpy raises there and the theorems
below assume a positive extent. -/
noncomputable def sliceMax (s : List ℕ) (ax : Fin s.length) (x : Index s → ℝ) (idx : Index s) : ℝ :=
  if h : 0 < s.get ax then
    Finset.univ.sup' ⟨⟨0, h⟩, Finset.mem_univ _⟩ (fun j => x (updAt s ax idx j))
  else 0

/-- The generic forward kernel, lines 49 to 51 of the source:
`self.y = x[0] - x[0].max(axis=self.axis, keepdims=True)`, then
`xp.exp(self.y, out=self.y)`, then
`self.y /= self.y.sum(axis=self.axis, keepdims=True)`, read pointwise. -/
noncomputable def ndSoftmax (s : List ℕ) (ax : Fin s.length) (x : Index s → ℝ) : Index s → ℝ :=
  fun idx =>
    Real.exp (x idx - sliceMax s ax x idx) /
      ∑ j : Fin (s.get ax), Real.exp (x (updAt s ax idx j) - sliceMax s ax x (updAt s ax idx j))

/-- Generic-backend forward on an `NDArray`: the output carries the
input's shape, dtype and device, with softmax-transformed data. -/
noncomputable def ndForward (x : NDArray) (ax : Fin x.shape.length) : NDArray :=
  { shape := x.shape, dtype := x.dtype, device := x.device,
    data := ndSoftmax x.shape ax x.data }

/-- Broadcast addition of a scalar to every element of an array. -/
noncomputable def addScalar (x : NDArray) (c : ℝ) : NDArray :=
  { x with data := fun i => x.data i + c }

/-- The generic backward kernel, lines 71 to 73 of the source:
`gx = self.y * gy[0]`, then
`sumdx = gx.sum(axis=self.axis, keepdims=True)`, then
`gx -= self.y * sumdx`, read pointwise at a multi-index. -/
noncomputable def ndSoftmaxBackwardData (s : List ℕ) (ax : Fin s.length) (y gy : Index s → ℝ) : Index s → ℝ :=
  fun idx =>
    y idx * gy idx -
      y idx * ∑ j : Fin (s.get ax), y (updAt s ax idx j) * gy (updAt s ax idx j)

/-- Generic-backend backward on an `NDArray`: output carries the shape,
dtype and device of the memoized forward output `y`. -/
noncomputable def ndBackward (y : NDArray) (ax : Fin y.shape.length) (gyd : Index y.shape → ℝ) : NDArray :=
  { shape := y.shape, dtype := y.dtype, device := y.device,
    data := ndSoftmaxBackwardData y.shape ax y.data gyd }

/-- Error kinds of the operator.  The failure sites are raised by the
repository's framework (`chainer.utils.type_check`, `chainer.function`),
which is not under `src/`; the kinds are the ones the spec names:
`ShapeError`, `DtypeError`, `AxisError`, `StateError`, `BackendError`. -/
inductive SoftmaxError where
  | ShapeError
  | DtypeError
  | AxisError
  | StateError
  | BackendError
deriving DecidableEq

/-- Input validation of `Softmax.check_type_forward` (lines 23 to 31 of
the source): the conditions `x_type.dtype.kind == 'f'`,
`x_type.ndim > 1` and `self.axis < x_type.ndim` are checked in this
order and the first failing one raises.  The mapping of each condition to
a distinct error kind is modelled from the spec's error taxonomy, the
`type_check` framework itself not being under `src/`. -/
def checkTypeForward (shape : List ℕ) (dtype : Dtype) (axis : ℤ) : Except SoftmaxError Unit :=
  if dtype.isFloat = false then .error .DtypeError
  else if shape.length ≤ 1 then .error .ShapeError
  else if (shape.length : ℤ) ≤ axis then .error .AxisError
  else .ok ()

/-- Process-wide capability flags: `cuda.cudnn_enabled` and
`_cudnn_version = libcudnn.getVersion()`, read-only after startup. -/
structure GlobalCtx where
  cudnnEnabled : Bool
  cudnnVersion : ℕ

/-- The two execution backends. -/
inductive Backend where
  | Generic
  | Specialized
deriving DecidableEq

/-- Backend decision of `Softmax.forward` (lines 34 to 36 of the source):
the cudnn path is taken iff `xp != numpy and cuda.cudnn_enabled and
self.use_cudnn and (_cudnn_version >= 3000 or x[0].dtype !=
numpy.float16)`. -/
def selectBackendForward (ctx : GlobalCtx) (useCudnn : Bool) (dev : Device) (dt : Dtype) : Backend :=
  if dev ≠ Device.host ∧ ctx.cudnnEnabled = true ∧ useCudnn = true ∧
      (3000 ≤ ctx.cudnnVersion ∨ dt ≠ Dtype.float16) then Backend.Specialized
  else Backend.Generic

/-- Backend decision of `Softmax.backward` (lines 56 to 58 of the
source), textually the same condition as in `forward`. -/
def selectBackendBackward (ctx : GlobalCtx) (useCudnn : Bool) (dev : Device) (dt : Dtype) : Backend :=
  if dev ≠ Device.host ∧ ctx.cudnnEnabled = true ∧ useCudnn = true ∧
      (3000 ≤ ctx.cudnnVersion ∨ dt ≠ Dtype.float16) then Backend.Specialized
  else Backend.Generic

/-- The external vendor kernels `libcudnn.softmaxForward` and
`libcudnn.softmaxBackward`; their computation lives outside the
repository, so the embedding takes them as a parameter. -/
structure SpecializedImpl where
  fwd : NDArray → ℤ → NDArray
  bwd : NDArray → NDArray → ℤ → NDArray

/-- Modelled from the spec: the operator instance of
`function.Function`, whose base class is not under `src/`.  It holds the
configuration (`use_cudnn`, `axis`) and, after a forward call, the
memoized forward output `y`. -/
structure SoftmaxState where
  useCudnn : Bool
  axis : ℤ
  y : Option NDArray

/-- Dispatch of the generic forward kernel for a validated axis; the
identity is junk for an axis that is not a valid non-negative index. -/
noncomputable def genericForward (x : NDArray) (axis : ℤ) : NDArray :=
  if h : 0 ≤ axis ∧ axis.toNat < x.shape.length then ndForward x ⟨axis.toNat, h.2⟩ else x

/-- Modelled from the spec: one forward call on an operator instance.
The caller side `function.Function.__call__` is not under `src/`; per
the spec it rejects a second forward with `StateError`, runs the input
validation before any computation, then dispatches `Softmax.forward`
through the backend selector and memoizes the output. -/
noncomputable def forwardCall (ctx : GlobalCtx) (impl : SpecializedImpl) (st : SoftmaxState) (x : NDArray) : SoftmaxState × Except SoftmaxError NDArray :=
  match st.y with
  | some _ => (st, .error .StateError)
  | none =>
    match checkTypeForward x.shape x.dtype st.axis with
    | .error e => (st, .error e)
    | .ok _ =>
      let y := match selectBackendForward ctx st.useCudnn x.device x.dtype with
        | .Specialized => impl.fwd x st.axis
        | .Generic => genericForward x st.axis
      ({ st with y := some y }, .ok y)

/-- Transport a multi-index along an equality of shapes. -/
def castIndex {s t : List ℕ} (h : s = t) (i : Index s) : Index t := h ▸ i

/-- Dispatch of the generic backward kernel for a validated axis. -/
noncomputable def genericBackward (y : NDArray) (axis : ℤ) (gyd : Index y.shape → ℝ) : NDArray :=
  if h : 0 ≤ axis ∧ axis.toNat < y.shape.length then ndBackward y ⟨axis.toNat, h.2⟩ gyd else y

/-- Modelled from the spec: the result of one backward call.  Backward
before forward is a fail-fast `StateError` (no memoized output exists);
the framework's gradient validation, not under `src/`, raises
`ShapeError` when the upstream gradient's shape mismatches the memoized
output's; otherwise `Softmax.backward` dispatches through the same
selection rule as forward. -/
noncomputable def backwardCallResult (ctx : GlobalCtx) (impl : SpecializedImpl) (st : SoftmaxState) (gy : NDArray) : Except SoftmaxError NDArray :=
  match st.y with
  | none => .error .StateError
  | some y =>
    if h : gy.shape = y.shape then
      .ok (match selectBackendBackward ctx st.useCudnn y.device y.dtype with
        | .Specialized => impl.bwd y gy st.axis
        | .Generic => genericBackward y st.axis (fun i => gy.data (castIndex h.symm i)))
    else .error .ShapeError

/-- Modelled from the spec: one backward call on an operator instance.
The source's `Softmax.backward` assigns no instance attribute, so the
state component is returned unchanged. -/
noncomputable def backwardCall (ctx : GlobalCtx) (impl : SpecializedImpl) (st : SoftmaxState) (gy : NDArray) : SoftmaxState × Except SoftmaxError NDArray :=
  (st, backwardCallResult ctx impl st gy)

/-- The buffers alive during the generic branch of `Softmax.backward`:
the input `x`, the memoized output `y`, the upstream gradient `gy`, and
the scratch buffers `gx`, `sumdx` the branch assigns. -/
structure BwdBuffers (s : List ℕ) where
  x : Index s → ℝ
  y : Index s → ℝ
  gy : Index s → ℝ
  gx : Index s → ℝ
  sumdx : Index s → ℝ

/-- The three statements of the generic backward branch as buffer
updates: `gx = self.y * gy[0]`; `sumdx = gx.sum(axis=self.axis,
keepdims=True)`; `gx -= self.y * sumdx`.  Each statement writes only the
buffer on its left-hand side. -/
noncomputable def bwdRun (s : List ℕ) (ax : Fin s.length) (b : BwdBuffers s) : BwdBuffers s :=
  let b1 := { b with gx := fun i => b.y i * b.gy i }
  let b2 := { b1 with sumdx := fun i => ∑ j : Fin (s.get ax), b1.gx (updAt s ax i j) }
  let b3 := { b2 with gx := fun i => b2.gx i - b2.y i * b2.sumdx i }
  b3

/-- A concrete 2 by 2 float32 host array of zeros, used to instantiate
the theorems below at a concrete input. -/
noncomputable def sampleArr : NDArray :=
  { shape := [2, 2], dtype := Dtype.float32, device := Device.host, data := fun _ => 0 }

/-- A concrete 2 by 3 float32 host array, used as a shape-mismatched
upstream gradient. -/
noncomputable def sampleArr23 : NDArray :=
  { shape := [2, 3], dtype := Dtype.float32, device := Device.host, data := fun _ => 0 }

/-- A concrete multi-index into a 2 by 2 array. -/
def sampleIdx : Index [2, 2] := fun i => ⟨0, by fin_cases i <;> decide⟩

/-- A trivial stand-in for the external vendor kernels. -/
def sampleImpl : SpecializedImpl := { fwd := fun a _ => a, bwd := fun a _ _ => a }

/-- A concrete capability context with the specialized library absent. -/
def sampleCtx : GlobalCtx := { cudnnEnabled := false, cudnnVersion := 0 }

/-- A fresh operator instance with axis 1. -/
def sampleState : SoftmaxState := { useCudnn := true, axis := 1, y := none }

/-- A fresh operator instance with the out-of-range axis 5. -/
def sampleStateBadAxis : SoftmaxState := { useCudnn := true, axis := 5, y := none }

/-- An operator instance that has already memoized a forward output. -/
noncomputable def sampleStateDone : SoftmaxState := { useCudnn := true, axis := 1, y := some sampleArr }

/-- The concrete axis 1 of the sample array. -/
def sampleAx : Fin sampleArr.shape.length := ⟨1, by decide⟩

theorem updAt_idem (s : List ℕ) (ax : Fin s.length) (idx : Index s) (j k : Fin (s.get ax)) :
    updAt s ax (updAt s ax idx j) k = updAt s ax idx k := by
  simp [updAt, Function.update_idem]

theorem updAt_self (s : List ℕ) (ax : Fin s.length) (idx : Index s) :
    updAt s ax idx (idx ax) = idx := by
  simp [updAt, Function.update_eq_self]

theorem sliceMax_updAt (s : List ℕ) (ax : Fin s.length) (x : Index s → ℝ) (idx : Index s) (j : Fin (s.get ax)) :
    sliceMax s ax x (updAt s ax idx j) = sliceMax s ax x idx := by
  by_cases h : 0 < s.get ax
  · simp only [sliceMax, dif_pos h]
    exact Finset.sup'_congr _ rfl fun k _ => by rw [updAt_idem]
  · simp only [sliceMax, dif_neg h]

theorem ndSoftmax_apply (s : List ℕ) (ax : Fin s.length) (x : Index s → ℝ) (idx : Index s) :
    ndSoftmax s ax x idx =
      Real.exp (x idx - sliceMax s ax x idx) /
        ∑ j : Fin (s.get ax), Real.exp (x (updAt s ax idx j) - sliceMax s ax x idx) := by
  unfold ndSoftmax
  congr 1
  exact Finset.sum_congr rfl fun _ _ => by rw [sliceMax_updAt]

theorem ndSoftmax_sum_pos (s : List ℕ) (ax : Fin s.length) (x : Index s → ℝ) (idx : Index s)
    (hn : 0 < s.get ax) :
    0 < ∑ j : Fin (s.get ax), Real.exp (x (updAt s ax idx j) - sliceMax s ax x idx) :=
  Finset.sum_pos (fun j _ => Real.exp_pos _) ⟨⟨0, hn⟩, Finset.mem_univ _⟩

/-- C1: for every valid input (floating dtype, rank at least 2, positive
extent at the axis) the generic forward output has the shape and dtype of
the input, every output element lies in the interval from 0 to 1, and for
every fixed combination of the other indices the values along the axis
sum to 1 (exactly, in the real-valued model of the floating values). -/
theorem softmax_C1 (x : NDArray) (ax : Fin x.shape.length)
    (hf : x.dtype.isFloat = true) (hr : 2 ≤ x.shape.length)
    (hn : 0 < x.shape.get ax) :
    (ndForward x ax).shape = x.shape ∧ (ndForward x ax).dtype = x.dtype ∧
    ∀ idx : Index x.shape,
      (0 ≤ (ndForward x ax).data idx ∧ (ndForward x ax).data idx ≤ 1) ∧
      ∑ j : Fin (x.shape.get ax), (ndForward x ax).data (updAt x.shape ax idx j) = 1 := by
  refine ⟨rfl, rfl, fun idx => ?_⟩
  have hdata : ∀ i : Index x.shape, (ndForward x ax).data i =
      Real.exp (x.data i - sliceMax x.shape ax x.data i) /
        ∑ j : Fin (x.shape.get ax),
          Real.exp (x.data (updAt x.shape ax i j) - sliceMax x.shape ax x.data i) :=
    fun i => ndSoftmax_apply x.shape ax x.data i
  have hSpos : ∀ i : Index x.shape,
      0 < ∑ j : Fin (x.shape.get ax),
        Real.exp (x.data (updAt x.shape ax i j) - sliceMax x.shape ax x.data i) :=
    fun i => ndSoftmax_sum_pos x.shape ax x.data i hn
  refine ⟨⟨?_, ?_⟩, ?_⟩
  · rw [hdata idx]
    exact div_nonneg (Real.exp_pos _).le (hSpos idx).le
  · rw [hdata idx, div_le_one (hSpos idx)]
    have h1 : Real.exp (x.data idx - sliceMax x.shape ax x.data idx) =
        Real.exp (x.data (updAt x.shape ax idx (idx ax)) - sliceMax x.shape ax x.data idx) := by
      rw [updAt_self]
    rw [h1]
    have hle : ∀ (g : Fin (x.shape.get ax) → ℝ), (∀ j, 0 ≤ g j) →
        ∀ i0 : Fin (x.shape.get ax), g i0 ≤ ∑ j : Fin (x.shape.get ax), g j :=
      fun g hg i0 => Finset.single_le_sum (fun j _ => hg j) (Finset.mem_univ i0)
    exact hle (fun j => Real.exp (x.data (updAt x.shape ax idx j) - sliceMax x.shape ax x.data idx))
      (fun j => (Real.exp_pos _).le) (idx ax)
  · have hterm : ∀ j : Fin (x.shape.get ax),
        (ndForward x ax).data (updAt x.shape ax idx j) =
          Real.exp (x.data (updAt x.shape ax idx j) - sliceMax x.shape ax x.data idx) /
            ∑ k : Fin (x.shape.get ax),
              Real.exp (x.data (updAt x.shape ax idx k) - sliceMax x.shape ax x.data idx) := by
      intro j
      rw [hdata (updAt x.shape ax idx j), sliceMax_updAt]
      congr 1
      exact Finset.sum_congr rfl fun k _ => by rw [updAt_idem]
    have hsum : (∑ j : Fin (x.shape.get ax), (ndForward x ax).data (updAt x.shape ax idx j)) =
        ∑ j : Fin (x.shape.get ax),
          Real.exp (x.data (updAt x.shape ax idx j) - sliceMax x.shape ax x.data idx) /
            ∑ k : Fin (x.shape.get ax),
              Real.exp (x.data (updAt x.shape ax idx k) - sliceMax x.shape ax x.data idx) :=
      Finset.sum_congr rfl fun j _ => hterm j
    rw [hsum, ← Finset.sum_div]
    exact div_self (hSpos idx).ne'

/-- Witness for C1 at a concrete 2 by 2 float32 array. -/
theorem softmax_C1_witness :
    (ndForward sampleArr sampleAx).shape = sampleArr.shape ∧
    ((0 ≤ (ndForward sampleArr sampleAx).data sampleIdx ∧
      (ndForward sampleArr sampleAx).data sampleIdx ≤ 1) ∧
     ∑ j : Fin (sampleArr.shape.get sampleAx),
       (ndForward sampleArr sampleAx).data
         (updAt sampleArr.shape sampleAx sampleIdx j) = 1) :=
  ⟨(softmax_C1 sampleArr sampleAx rfl (by decide) (by decide)).1,
   (softmax_C1 sampleArr sampleAx rfl (by decide) (by decide)).2.2 sampleIdx⟩

/-- C2: the generic backward output has the shape and dtype of the
memoized forward output `y`, and the composition of the three source
statements equals, elementwise, the exact vector-Jacobian product of
softmax: the gradient at an index is the output probability there times
the upstream gradient minus the slice-wide probability-weighted sum of
the upstream gradient. -/
theorem softmax_C2 (y : NDArray) (ax : Fin y.shape.length) (gyd : Index y.shape → ℝ) :
    (ndBackward y ax gyd).shape = y.shape ∧ (ndBackward y ax gyd).dtype = y.dtype ∧
    ∀ idx : Index y.shape,
      (ndBackward y ax gyd).data idx =
        y.data idx * (gyd idx -
          ∑ j : Fin (y.shape.get ax),
            y.data (updAt y.shape ax idx j) * gyd (updAt y.shape ax idx j)) := by
  refine ⟨rfl, rfl, fun idx => ?_⟩
  show y.data idx * gyd idx -
      y.data idx * ∑ j : Fin (y.shape.get ax),
        y.data (updAt y.shape ax idx j) * gyd (updAt y.shape ax idx j) = _
  rw [mul_sub]

/-- C3: the specialized backend is chosen exactly when the array is on
the accelerator, the library is enabled, the config permits cudnn, and
the version threshold is met or the dtype is not half precision;
otherwise the generic backend is chosen; and the decision rule of
`forward` coincides with the one re-derived in `backward`. -/
theorem softmax_C3 :
    (∀ (ctx : GlobalCtx) (u : Bool) (dev : Device) (dt : Dtype),
        selectBackendForward ctx u dev dt = Backend.Specialized ↔
          (dev = Device.accelerator ∧ ctx.cudnnEnabled = true ∧ u = true ∧
            (3000 ≤ ctx.cudnnVersion ∨ dt ≠ Dtype.float16))) ∧
    (∀ (ctx : GlobalCtx) (u : Bool) (dev : Device) (dt : Dtype),
        selectBackendForward ctx u dev dt = Backend.Generic ∨
          selectBackendForward ctx u dev dt = Backend.Specialized) ∧
    (∀ (ctx : GlobalCtx) (u : Bool) (dev : Device) (dt : Dtype),
        selectBackendForward ctx u dev dt = selectBackendBackward ctx u dev dt) := by
  refine ⟨?_, ?_, ?_⟩
  · intro ctx u dev dt
    cases dev <;> simp only [selectBackendForward] <;> split_ifs with h <;> simp_all
  · intro ctx u dev dt
    unfold selectBackendForward
    split_ifs <;> simp
  · intro ctx u dev dt
    rfl

theorem sliceMax_add (s : List ℕ) (ax : Fin s.length) (x : Index s → ℝ) (c : ℝ) (idx : Index s)
    (hn : 0 < s.get ax) :
    sliceMax s ax (fun i => x i + c) idx = sliceMax s ax x idx + c := by
  simp only [sliceMax, dif_pos hn]
  have hsup : ∀ a b : ℝ, (fun r => r + c) (a ⊔ b) = (fun r => r + c) a ⊔ (fun r => r + c) b := by
    intro a b
    exact (max_add_add_right a b c).symm
  have key : (fun r => r + c)
      (Finset.univ.sup' ⟨⟨0, hn⟩, Finset.mem_univ _⟩ (fun j => x (updAt s ax idx j))) =
      Finset.univ.sup' ⟨⟨0, hn⟩, Finset.mem_univ _⟩
        ((fun r => r + c) ∘ fun j => x (updAt s ax idx j)) :=
    Finset.comp_sup'_eq_sup'_comp _ (fun r => r + c) hsup
  exact key.symm

/-- C4 counterexample: the claim demands an `AxisError` for every axis
outside the interval from 0 to the rank, but the validation of
`check_type_forward` only checks the upper bound `self.axis <
x_type.ndim`, so the out-of-range axis -1 on a rank-2 float array is
accepted. -/
theorem softmax_C4_counterexample :
    ((-1 : ℤ) < 0 ∨ (2 : ℤ) ≤ (-1 : ℤ)) ∧
    checkTypeForward [2, 2] Dtype.float32 (-1) = .ok () :=
  ⟨Or.inl (by decide), rfl⟩

/-- C4 (amended): a forward call fails with `DtypeError` when the dtype
is not a floating kind; with floating dtype it fails with `ShapeError`
when the rank is less than 2; with floating dtype and rank at least 2 it
fails with `AxisError` when the axis is at least the rank (negative axes
are not rejected by the validation) and is accepted when the axis is
below the rank; and a call rejected by validation returns the error with
the instance state unchanged, before any computation. -/
theorem softmax_C4_amended :
    (∀ (s : List ℕ) (dt : Dtype) (a : ℤ), dt.isFloat = false →
        checkTypeForward s dt a = .error .DtypeError) ∧
    (∀ (s : List ℕ) (dt : Dtype) (a : ℤ), dt.isFloat = true → s.length ≤ 1 →
        checkTypeForward s dt a = .error .ShapeError) ∧
    (∀ (s : List ℕ) (dt : Dtype) (a : ℤ), dt.isFloat = true → 2 ≤ s.length →
        (s.length : ℤ) ≤ a → checkTypeForward s dt a = .error .AxisError) ∧
    (∀ (s : List ℕ) (dt : Dtype) (a : ℤ), dt.isFloat = true → 2 ≤ s.length →
        a < (s.length : ℤ) → checkTypeForward s dt a = .ok ()) ∧
    (∀ (ctx : GlobalCtx) (impl : SpecializedImpl) (st : SoftmaxState) (x : NDArray)
        (e : SoftmaxError), st.y = none →
        checkTypeForward x.shape x.dtype st.axis = .error e →
        forwardCall ctx impl st x = (st, .error e)) := by
  refine ⟨?_, ?_, ?_, ?_, ?_⟩
  · intro s dt a h
    simp [checkTypeForward, h]
  · intro s dt a hf h
    simp [checkTypeForward, hf, h]
  · intro s dt a hf h2 h3
    unfold checkTypeForward
    rw [if_neg (by simp [hf]), if_neg (by omega), if_pos h3]
  · intro s dt a hf h2 h3
    unfold checkTypeForward
    rw [if_neg (by simp [hf]), if_neg (by omega), if_neg (by omega)]
  · intro ctx impl st x e hy hchk
    unfold forwardCall
    rw [hy, hchk]

/-- Witness for C4 (amended) at concrete shapes, dtypes and axes. -/
theorem softmax_C4_witness :
    checkTypeForward [2, 2] Dtype.int32 0 = .error .DtypeError ∧
    checkTypeForward [3] Dtype.float32 0 = .error .ShapeError ∧
    checkTypeForward [2, 2] Dtype.float32 5 = .error .AxisError ∧
    checkTypeForward [2, 2] Dtype.float32 1 = .ok () ∧
    forwardCall sampleCtx sampleImpl sampleStateBadAxis sampleArr =
      (sampleStateBadAxis, .error .AxisError) :=
  ⟨softmax_C4_amended.1 [2, 2] Dtype.int32 0 rfl,
   softmax_C4_amended.2.1 [3] Dtype.float32 0 rfl (by decide),
   softmax_C4_amended.2.2.1 [2, 2] Dtype.float32 5 rfl (by decide) (by decide),
   softmax_C4_amended.2.2.2.1 [2, 2] Dtype.float32 1 rfl (by decide) (by decide),
   softmax_C4_amended.2.2.2.2 sampleCtx sampleImpl sampleStateBadAxis sampleArr .AxisError rfl rfl⟩

/-- C5: on an operator instance, backward before any forward call fails
with `StateError` (no memoized output exists), and a second forward on an
instance that already memoized an output fails with `StateError`. -/
theorem softmax_C5 (ctx : GlobalCtx) (impl : SpecializedImpl) (st st2 : SoftmaxState)
    (x gy a : NDArray) (h : st.y = none) (h2 : st2.y = some a) :
    backwardCall ctx impl st gy = (st, .error .StateError) ∧
    forwardCall ctx impl st2 x = (st2, .error .StateError) := by
  constructor
  · unfold backwardCall backwardCallResult
    rw [h]
  · unfold forwardCall
    rw [h2]

/-- Witness for C5 on concrete fresh and used-up instances. -/
theorem softmax_C5_witness :
    backwardCall sampleCtx sampleImpl sampleState sampleArr =
      (sampleState, .error .StateError) ∧
    forwardCall sampleCtx sampleImpl sampleStateDone sampleArr =
      (sampleStateDone, .error .StateError) :=
  softmax_C5 sampleCtx sampleImpl sampleState sampleStateDone sampleArr sampleArr sampleArr rfl rfl

/-- C6: shift invariance of the generic forward: adding any scalar to
every element of a valid input leaves the forward output unchanged
(exactly, in the real-valued model), because the per-slice maximum
shifts by the same constant. -/
theorem softmax_C6 (x : NDArray) (ax : Fin x.shape.length) (c : ℝ)
    (hf : x.dtype.isFloat = true) (hr : 2 ≤ x.shape.length)
    (hn : 0 < x.shape.get ax) :
    ndForward (addScalar x c) ax = ndForward x ax := by
  have hd : ndSoftmax x.shape ax (fun i => x.data i + c) = ndSoftmax x.shape ax x.data := by
    funext idx
    simp only [ndSoftmax_apply]
    have hm : sliceMax x.shape ax (fun i => x.data i + c) idx =
        sliceMax x.shape ax x.data idx + c :=
      sliceMax_add x.shape ax x.data c idx hn
    have harg : ∀ a : ℝ, a + c - (sliceMax x.shape ax x.data idx + c) =
        a - sliceMax x.shape ax x.data idx := fun a => by ring
    simp only [hm, harg]
  exact congrArg (fun d => NDArray.mk x.shape x.dtype x.device d) hd

/-- Witness for C6 at a concrete array and scalar. -/
theorem softmax_C6_witness :
    ndForward (addScalar sampleArr 1) sampleAx = ndForward sampleArr sampleAx :=
  softmax_C6 sampleArr sampleAx 1 rfl (by decide) (by decide)

/-- C7: a backward call on an instance with a memoized output fails with
`ShapeError` whenever the upstream gradient's shape mismatches the
memoized output's shape. -/
theorem softmax_C7 (ctx : GlobalCtx) (impl : SpecializedImpl) (st : SoftmaxState)
    (gy y0 : NDArray) (h : st.y = some y0) (hsh : gy.shape ≠ y0.shape) :
    backwardCall ctx impl st gy = (st, .error .ShapeError) := by
  unfold backwardCall backwardCallResult
  rw [h]
  simp only [dif_neg hsh]

/-- Witness for C7 with a 2 by 3 gradient against a 2 by 2 output. -/
theorem softmax_C7_witness :
    backwardCall sampleCtx sampleImpl sampleStateDone sampleArr23 =
      (sampleStateDone, .error .ShapeError) :=
  softmax_C7 sampleCtx sampleImpl sampleStateDone sampleArr23 sampleArr rfl (by decide)

/-- C8: valid degenerate input raises no error: the validation accepts
any valid-shape floating input irrespective of its values, a slice of
all equal values maps to the uniform distribution, and when the axis has
extent 1 every output element equals 1. -/
theorem softmax_C8 (x : NDArray) (ax : Fin x.shape.length)
    (hf : x.dtype.isFloat = true) (hr : 2 ≤ x.shape.length)
    (hn : 0 < x.shape.get ax) :
    checkTypeForward x.shape x.dtype (ax.val : ℤ) = .ok () ∧
    (∀ idx : Index x.shape,
        (∀ j : Fin (x.shape.get ax), x.data (updAt x.shape ax idx j) = x.data idx) →
        (ndForward x ax).data idx = 1 / (x.shape.get ax : ℝ)) ∧
    (x.shape.get ax = 1 → ∀ idx : Index x.shape, (ndForward x ax).data idx = 1) := by
  have hok : checkTypeForward x.shape x.dtype (ax.val : ℤ) = .ok () := by
    have hax := ax.isLt
    unfold checkTypeForward
    rw [if_neg (by simp [hf]), if_neg (by omega), if_neg (by omega)]
  have hmain : ∀ idx : Index x.shape,
      (∀ j : Fin (x.shape.get ax), x.data (updAt x.shape ax idx j) = x.data idx) →
      (ndForward x ax).data idx = 1 / (x.shape.get ax : ℝ) := by
    intro idx hc
    have hm : sliceMax x.shape ax x.data idx = x.data idx := by
      simp only [sliceMax, dif_pos hn]
      have h1 : (Finset.univ : Finset (Fin (x.shape.get ax))).sup' ⟨⟨0, hn⟩, Finset.mem_univ _⟩
          (fun j => x.data (updAt x.shape ax idx j)) =
          (Finset.univ : Finset (Fin (x.shape.get ax))).sup' ⟨⟨0, hn⟩, Finset.mem_univ _⟩
            (fun _ => x.data idx) :=
        Finset.sup'_congr _ rfl fun j _ => hc j
      rw [h1, Finset.sup'_const]
    have happ : (ndForward x ax).data idx =
        Real.exp (x.data idx - sliceMax x.shape ax x.data idx) /
          ∑ j : Fin (x.shape.get ax),
            Real.exp (x.data (updAt x.shape ax idx j) - sliceMax x.shape ax x.data idx) :=
      ndSoftmax_apply x.shape ax x.data idx
    rw [happ, hm]
    have hterm : ∀ j : Fin (x.shape.get ax),
        Real.exp (x.data (updAt x.shape ax idx j) - x.data idx) = 1 := fun j => by
      rw [hc j, sub_self, Real.exp_zero]
    rw [sub_self, Real.exp_zero, Finset.sum_congr rfl fun j _ => hterm j]
    simp [Finset.card_univ]
  refine ⟨hok, hmain, ?_⟩
  intro h1 idx
  have hc : ∀ j : Fin (x.shape.get ax), x.data (updAt x.shape ax idx j) = x.data idx := by
    intro j
    have hj : j = idx ax := by
      apply Fin.ext
      have hja := j.isLt
      have hia := (idx ax).isLt
      omega
    rw [hj, updAt_self]
  rw [hmain idx hc, h1]
  norm_num

/-- Witness for C8 at the concrete all-zero 2 by 2 array. -/
theorem softmax_C8_witness :
    checkTypeForward sampleArr.shape sampleArr.dtype (sampleAx.val : ℤ) = .ok () ∧
    (∀ idx : Index sampleArr.shape,
        (∀ j : Fin (sampleArr.shape.get sampleAx),
          sampleArr.data (updAt sampleArr.shape sampleAx idx j) = sampleArr.data idx) →
        (ndForward sampleArr sampleAx).data idx = 1 / (sampleArr.shape.get sampleAx : ℝ)) ∧
    (sampleArr.shape.get sampleAx = 1 →
      ∀ idx : Index sampleArr.shape, (ndForward sampleArr sampleAx).data idx = 1) :=
  softmax_C8 sampleArr sampleAx rfl (by decide) (by decide)

/-- C10: in the generic backend, backward writes only the scratch
buffers `gx` and `sumdx`, never the input `x`, the memoized output `y`
or the upstream gradient `gy`; and since a backward call leaves the
instance state unchanged, calling backward again with the same upstream
gradient returns the same result. -/
theorem softmax_C10 :
    (∀ (s : List ℕ) (ax : Fin s.length) (b : BwdBuffers s),
        (bwdRun s ax b).x = b.x ∧ (bwdRun s ax b).y = b.y ∧ (bwdRun s ax b).gy = b.gy) ∧
    (∀ (ctx : GlobalCtx) (impl : SpecializedImpl) (st : SoftmaxState) (gy : NDArray),
        (backwardCall ctx impl st gy).1 = st ∧
        backwardCall ctx impl (backwardCall ctx impl st gy).1 gy =
          backwardCall ctx impl st gy) :=
  ⟨fun s ax b => ⟨rfl, rfl, rfl⟩, fun ctx impl st gy => ⟨rfl, rfl⟩⟩
